import Mathlib

/-!
# Verification of the go-cache library (larscom/go-cache)

Shallow embedding of the cache engine found in the repository. The repository
contains two historical variants of the engine in `cache.go`:

* an older bounded variant (`Cache`, lines 1-303): a plain map guarded by a
  RW mutex, an ordered `keys` slice used for FIFO eviction when `WithMaxSize`
  is configured, a loader flag, and TTL checked via `now.Sub(updated) > d`;
* a newer variant (`CacheImpl`, lines 304-583): a map of entries carrying an
  absolute `expiration` instant (zero time = never expires), a loader, and a
  cleanup ticker created by `WithExpireAfterWrite`.

Go maps are modelled as association lists with unique keys (insert overwrites
in place, delete removes, lookup scans); `time.Time` instants and
`time.Duration` values are modelled as `Nat` (the zero value of `time.Time`
is the sentinel `0`); Go's `(Value, error)` results are modelled as
`V × Option String`; a nil function field is modelled as an `Option` of a
function. Locking, goroutines and the ticker's real-time behaviour are not
modelled; `Close` is modelled by the flag it flips through its
`context.CancelFunc`.
-/

set_option autoImplicit false

universe u v

variable {K : Type u} {V : Type v}

/-- Lookup in a Go map modelled as an association list
(`entry, found := m[key]`). -/
def mapFind [DecidableEq K] : List (K × V) → K → Option V
  | [], _ => none
  | (k0, v0) :: rest, k => if k0 = k then some v0 else mapFind rest k

/-- Store in a Go map modelled as an association list (`m[key] = value`):
overwrites in place when the key is present, appends otherwise. -/
def mapStore [DecidableEq K] : List (K × V) → K → V → List (K × V)
  | [], k, v => [(k, v)]
  | (k0, v0) :: rest, k, v =>
    if k0 = k then (k, v) :: rest else (k0, v0) :: mapStore rest k v

/-- Deletion from a Go map modelled as an association list
(`delete(m, key)`). -/
def mapDelete [DecidableEq K] : List (K × V) → K → List (K × V)
  | [], _ => []
  | (k0, v0) :: rest, k =>
    if k0 = k then rest else (k0, v0) :: mapDelete rest k

/-! ## The older bounded variant (`Cache`, cache.go lines 1-303) -/

/-- Go `LoaderFunc[Key, Value] func(Key) (Value, error)`. -/
def LoaderFunc (K : Type u) (V : Type v) : Type (max u v) := K → V × Option String

/-- Entry of the older variant: `cacheEntry{key, value, updated time.Time}`. -/
structure cacheEntry (K : Type u) (V : Type v) where
  key : K
  value : V
  updated : Nat
  deriving Repr, DecidableEq

/-- Go `isExpired` of the older variant (cache.go lines 297-303):
expired iff a positive TTL is configured and `now.Sub(e.updated) > d`. -/
def cacheEntry.isExpired (e : cacheEntry K V) (expireAfterWrite : Nat) (now : Nat) : Bool :=
  if 0 < expireAfterWrite then decide (expireAfterWrite < now - e.updated) else false

/-- The older cache struct (cache.go lines 48-69). The `onExpired` callback,
mutexes and the ticker goroutine are not part of the state; `closed` models
the cancelled `rootCtx`. -/
structure Cache (K : Type u) (V : Type v) where
  data : List (K × cacheEntry K V)
  keys : List K
  maxSize : Nat
  withMaxSize : Bool
  loader : Option (LoaderFunc K V)
  withLoader : Bool
  expireAfterWrite : Nat
  closed : Bool

/-- Go `NewCache(options...)` (cache.go lines 71-86): zero-valued struct with an
empty map, options applied in order. -/
def NewCache [DecidableEq K] (options : List (Cache K V → Cache K V)) : Cache K V :=
  options.foldl (fun c opt => opt c)
    { data := [], keys := [], maxSize := 0, withMaxSize := false,
      loader := none, withLoader := false, expireAfterWrite := 0, closed := false }

/-- Go `WithExpireAfterWrite(d)` for the older variant (cache.go lines 199-205). -/
def WithExpireAfterWrite (d : Nat) : Cache K V → Cache K V :=
  fun c => { c with expireAfterWrite := d }

/-- Go `WithLoader(loader)` for the older variant (cache.go lines 207-214):
`withLoader` records `loader != nil`. -/
def WithLoader (loader : Option (LoaderFunc K V)) : Cache K V → Cache K V :=
  fun c => { c with loader := loader, withLoader := loader.isSome }

/-- Go `WithMaxSize(n)` (cache.go lines 224-232): sets `withMaxSize = n > 0` and
`keys = make([]Key, n)`, a slice of `n` zero-valued keys. -/
def WithMaxSize [Inhabited K] (maxSize : Nat) : Cache K V → Cache K V :=
  fun c => { c with maxSize := maxSize, withMaxSize := decide (0 < maxSize),
                    keys := List.replicate maxSize default }

def Cache.getSafe [DecidableEq K] (c : Cache K V) (key : K) : Option (cacheEntry K V) :=
  mapFind c.data key

def Cache.putSafe [DecidableEq K] (c : Cache K V) (entry : cacheEntry K V) : Cache K V :=
  { c with data := mapStore c.data entry.key entry }

def Cache.removeSafe [DecidableEq K] (c : Cache K V) (key : K) : Cache K V :=
  { c with data := mapDelete c.data key }

def Cache.newEntry (_c : Cache K V) (key : K) (value : V) (now : Nat) : cacheEntry K V :=
  { key := key, value := value, updated := now }

/-- Go `Clear()` (cache.go lines 88-92): replaces the map, touches nothing else. -/
def Cache.Clear (c : Cache K V) : Cache K V :=
  { c with data := [] }

/-- Go `Close()` (cache.go lines 94-96): cancels the root context. -/
def Cache.Close (c : Cache K V) : Cache K V :=
  { c with closed := true }

/-- Go `Count()` (cache.go lines 98-102): the raw map size `len(c.data)`. -/
def Cache.Count (c : Cache K V) : Nat :=
  c.data.length

def Cache.Has [DecidableEq K] (c : Cache K V) (key : K) : Bool :=
  (c.getSafe key).isSome

/-- Go `Keys()` (cache.go lines 137-144): the ordered slice in bounded mode,
otherwise the map's keys. -/
def Cache.Keys (c : Cache K V) : List K :=
  if c.withMaxSize = true then c.keys else c.data.map Prod.fst

/-- Go `Put(key, value)` (cache.go lines 146-160): in bounded mode, when the
ordered slice is at `maxSize`, deletes the entry of the front key, pops it and
appends the new key; then stores the entry. The slice is at `maxSize` from
construction on, so the empty-slice branch is unreachable for constructed
caches (Go would panic on `keys[0]`). -/
def Cache.Put [DecidableEq K] (c : Cache K V) (key : K) (value : V) (now : Nat) : Cache K V :=
  let entry := c.newEntry key value now
  let c1 :=
    if c.withMaxSize = true ∧ c.keys.length = c.maxSize then
      match c.keys with
      | [] => c
      | firstKey :: rest =>
        { c with data := mapDelete c.data firstKey, keys := rest ++ [entry.key] }
    else c
  c1.putSafe entry

/-- Go `Remove(key)` (cache.go lines 172-174): deletes from the map only. -/
def Cache.Remove [DecidableEq K] (c : Cache K V) (key : K) : Cache K V :=
  c.removeSafe key

/-- Go `load(key)` (cache.go lines 262-271): without a loader returns
`(zero, false, nil)`; with one returns `(value, err == nil, err)`. -/
def Cache.load [Inhabited V] (c : Cache K V) (key : K) : V × Bool × Option String :=
  if c.withLoader = true then
    match c.loader with
    | some f => ((f key).1, (f key).2.isNone, (f key).2)
    | none => (default, false, none)
  else (default, false, none)

/-- Go `Get(key)` (cache.go lines 112-130): returns a present entry unchanged;
otherwise loads and, on success, puts the loaded value. -/
def Cache.Get [DecidableEq K] [Inhabited V] (c : Cache K V) (key : K) (now : Nat) :
    (V × Bool × Option String) × Cache K V :=
  match c.getSafe key with
  | some entry => ((entry.value, true, none), c)
  | none =>
    let r := c.load key
    ((r.1, r.2.1, r.2.2), if r.2.1 = true then c.Put key r.1 now else c)

/-- Go `Reload(key)` (cache.go lines 162-170): errors without a loader, otherwise
removes the entry first and then calls `Get`. -/
def Cache.Reload [DecidableEq K] [Inhabited V] (c : Cache K V) (key : K) (now : Nat) :
    (V × Bool × Option String) × Cache K V :=
  if c.withLoader = true then (c.Remove key).Get key now
  else ((default, false, some "Cache doesn't contain a loader function"), c)

/-! ## The newer variant (`CacheImpl`, cache.go lines 304-583) -/

/-- Entry of the newer variant (`cacheEntry{key, value, expiration time.Time}`);
`expiration = 0` models Go's zero `time.Time`. -/
structure cacheEntryImpl (K : Type u) (V : Type v) where
  key : K
  value : V
  expiration : Nat
  deriving Repr, DecidableEq

/-- Go `isExpired()` of the newer entry: never expired at the zero time sentinel,
otherwise expired iff `time.Now().After(e.expiration)`. -/
def cacheEntryImpl.isExpired (e : cacheEntryImpl K V) (now : Nat) : Bool :=
  if e.expiration = 0 then false else decide (e.expiration < now)

/-- The newer cache struct (cache.go lines 350-362). `hasTicker` models
`cancel != nil` (a ticker was created) and `sweeperStopped` a cancelled
ticker context. -/
structure CacheImpl (K : Type u) (V : Type v) where
  entries : List (K × cacheEntryImpl K V)
  loader : Option (LoaderFunc K V)
  expireAfterWrite : Nat
  hasTicker : Bool
  sweeperStopped : Bool

/-- Go `NewCache(options...)` for the newer variant (cache.go lines 364-374). -/
def NewCacheImpl [DecidableEq K] (options : List (CacheImpl K V → CacheImpl K V)) :
    CacheImpl K V :=
  options.foldl (fun c opt => opt c)
    { entries := [], loader := none, expireAfterWrite := 0,
      hasTicker := false, sweeperStopped := false }

/-- Go `WithExpireAfterWriteCustom(d, interval)` (cache.go lines 485-498): sets
the TTL and creates the cleanup ticker once. -/
def WithExpireAfterWriteCustomImpl (d : Nat) (_cleanupInterval : Nat) :
    CacheImpl K V → CacheImpl K V :=
  fun c => { c with expireAfterWrite := d,
                    hasTicker := true }

/-- Go `WithExpireAfterWrite(d)` (cache.go lines 479-483): custom with a
one-minute interval. -/
def WithExpireAfterWriteImpl (d : Nat) : CacheImpl K V → CacheImpl K V :=
  WithExpireAfterWriteCustomImpl d 60000000000

/-- Go `WithLoader(loader)` for the newer variant (cache.go lines 500-506). -/
def WithLoaderImpl (loader : Option (LoaderFunc K V)) : CacheImpl K V → CacheImpl K V :=
  fun c => { c with loader := loader }

/-- Go `newEntry(key, value)` (cache.go lines 516-524): absolute expiration
`now + ttl` when a TTL is configured, the zero time otherwise. -/
def CacheImpl.newEntry (c : CacheImpl K V) (key : K) (value : V) (now : Nat) :
    cacheEntryImpl K V :=
  { key := key, value := value,
    expiration := if 0 < c.expireAfterWrite then now + c.expireAfterWrite else 0 }

/-- Go `nonExpiredEntries()` (cache.go lines 526-536). -/
def CacheImpl.nonExpiredEntries (c : CacheImpl K V) (now : Nat) :
    List (K × cacheEntryImpl K V) :=
  c.entries.filter (fun p => !p.2.isExpired now)

def CacheImpl.getSafe [DecidableEq K] (c : CacheImpl K V) (key : K) :
    Option (cacheEntryImpl K V) :=
  mapFind c.entries key

def CacheImpl.putSafe [DecidableEq K] (c : CacheImpl K V) (entry : cacheEntryImpl K V) :
    CacheImpl K V :=
  { c with entries := mapStore c.entries entry.key entry }

def CacheImpl.removeSafe [DecidableEq K] (c : CacheImpl K V) (key : K) : CacheImpl K V :=
  { c with entries := mapDelete c.entries key }

/-- Go `Clear()` (cache.go lines 376-380). -/
def CacheImpl.Clear (c : CacheImpl K V) : CacheImpl K V :=
  { c with entries := [] }

/-- Go `Close()` (cache.go lines 382-386): cancels the ticker context when one
exists, otherwise does nothing. -/
def CacheImpl.Close (c : CacheImpl K V) : CacheImpl K V :=
  if c.hasTicker = true then { c with sweeperStopped := true } else c

/-- Go `Count()` (cache.go lines 388-390): size of `nonExpiredEntries()`. -/
def CacheImpl.Count (c : CacheImpl K V) (now : Nat) : Nat :=
  (c.nonExpiredEntries now).length

/-- Go `GetIfPresent(key)` (cache.go lines 418-427). -/
def CacheImpl.GetIfPresent [DecidableEq K] [Inhabited V] (c : CacheImpl K V) (key : K)
    (now : Nat) : V × Bool :=
  match c.getSafe key with
  | some entry => if entry.isExpired now = false then (entry.value, true) else (default, false)
  | none => (default, false)

/-- Go `Has(key)` (cache.go lines 443-446). -/
def CacheImpl.Has [DecidableEq K] [Inhabited V] (c : CacheImpl K V) (key : K)
    (now : Nat) : Bool :=
  (c.GetIfPresent key now).2

/-- Go `Put(key, value)` (cache.go lines 452-455). -/
def CacheImpl.Put [DecidableEq K] (c : CacheImpl K V) (key : K) (value : V) (now : Nat) :
    CacheImpl K V :=
  c.putSafe (c.newEntry key value now)

/-- Go `Remove(key)` (cache.go lines 457-459). -/
def CacheImpl.Remove [DecidableEq K] (c : CacheImpl K V) (key : K) : CacheImpl K V :=
  c.removeSafe key

/-- Go `load(key)` (cache.go lines 554-563): a configuration error without a
loader, otherwise the loader's result. -/
def CacheImpl.load [Inhabited V] (c : CacheImpl K V) (key : K) : V × Option String :=
  match c.loader with
  | none => (default, some "you must configure a loader, use GetIfPresent instead")
  | some f => f key

/-- Go `Get(key)` (cache.go lines 398-416): returns a present, unexpired entry
unchanged; otherwise loads and puts the value when the error is nil. -/
def CacheImpl.Get [DecidableEq K] [Inhabited V] (c : CacheImpl K V) (key : K) (now : Nat) :
    (V × Option String) × CacheImpl K V :=
  match c.getSafe key with
  | some entry =>
    if entry.isExpired now = false then ((entry.value, none), c)
    else
      let r := c.load key
      (r, if r.2 = none then c.Put key r.1 now else c)
  | none =>
    let r := c.load key
    (r, if r.2 = none then c.Put key r.1 now else c)

/-- Go `Refresh(key)` (cache.go lines 429-441): always loads; puts only when the
error is nil. -/
def CacheImpl.Refresh [DecidableEq K] [Inhabited V] (c : CacheImpl K V) (key : K)
    (now : Nat) : (V × Option String) × CacheImpl K V :=
  let r := c.load key
  (r, if r.2 = none then c.Put key r.1 now else c)

/-- Go `cleanup()` (cache.go lines 538-552): removes every entry that is still
present and expired. -/
def CacheImpl.cleanup [DecidableEq K] (c : CacheImpl K V) (now : Nat) : CacheImpl K V :=
  (c.entries.map Prod.fst).foldl
    (fun acc key =>
      match acc.getSafe key with
      | some entry => if entry.isExpired now = true then acc.removeSafe key else acc
      | none => acc) c

/-! ## Sequences of `Put` on a freshly created bounded cache -/

/-- Repeated `Put` of key/value pairs, in order, with a fixed write time. -/
def Cache.PutAll [DecidableEq K] (c : Cache K V) (items : List (K × V)) (now : Nat) :
    Cache K V :=
  items.foldl (fun acc kv => acc.Put kv.1 kv.2 now) c

/-! ## Entry of the csmap-based variant (entry.go) -/

/-- Entry of the csmap-based variant (entry.go): `expireAt = 0` models Go's
zero `time.Time` (`zeroTime`). -/
structure entry (K : Type u) (V : Type v) where
  key : K
  value : V
  expireAt : Nat
  deriving Repr, DecidableEq

/-- Go `newEntry(key, value, expireAt)` (entry.go lines 13-23). -/
def newEntryGo (key : K) (value : V) (expireAt : Nat) : entry K V :=
  { key := key, value := value, expireAt := expireAt }

/-- Go `isExpired()` (entry.go lines 25-30): false at the zero time, otherwise
`time.Now().After(e.expireAt)`. -/
def entry.isExpired (e : entry K V) (now : Nat) : Bool :=
  if e.expireAt = 0 then false else decide (e.expireAt < now)

/-- Go `isValid()` (entry.go lines 32-34). -/
def entry.isValid (e : entry K V) (now : Nat) : Bool :=
  !(e.isExpired now)

/-- A loader that fails on every key, as in the repository test
`should not update cache when loader returns an error` (cache_test.go). -/
def failLoader : LoaderFunc Nat Nat := fun _ => (0, some "ERROR")

theorem mapFind_nil [DecidableEq K] (k : K) : mapFind ([] : List (K × V)) k = none := rfl

theorem mapFind_cons [DecidableEq K] (k0 k : K) (v0 : V) (rest : List (K × V)) :
    mapFind ((k0, v0) :: rest) k = if k0 = k then some v0 else mapFind rest k := rfl

theorem mapStore_of_not_mem [DecidableEq K] (m : List (K × V)) (k : K) (v : V)
    (h : k ∉ m.map Prod.fst) : mapStore m k v = m ++ [(k, v)] := by
  induction m with
  | nil => rfl
  | cons p rest ih =>
    obtain ⟨k0, v0⟩ := p
    simp only [List.map_cons, List.mem_cons] at h
    push_neg at h
    simp [mapStore, Ne.symm h.1, ih h.2]

theorem mapDelete_of_not_mem [DecidableEq K] (m : List (K × V)) (k : K)
    (h : k ∉ m.map Prod.fst) : mapDelete m k = m := by
  induction m with
  | nil => rfl
  | cons p rest ih =>
    obtain ⟨k0, v0⟩ := p
    simp only [List.map_cons, List.mem_cons] at h
    push_neg at h
    simp [mapDelete, Ne.symm h.1, ih h.2]

theorem mapDelete_head [DecidableEq K] (k : K) (v : V) (rest : List (K × V)) :
    mapDelete ((k, v) :: rest) k = rest := by
  simp [mapDelete]

theorem mapFind_eq_none_of_not_mem [DecidableEq K] (m : List (K × V)) (k : K)
    (h : k ∉ m.map Prod.fst) : mapFind m k = none := by
  induction m with
  | nil => rfl
  | cons p rest ih =>
    obtain ⟨k0, v0⟩ := p
    simp only [List.map_cons, List.mem_cons] at h
    push_neg at h
    simp [mapFind, Ne.symm h.1, ih h.2]

theorem mapFind_isSome_of_mem [DecidableEq K] (m : List (K × V)) (k : K)
    (h : k ∈ m.map Prod.fst) : (mapFind m k).isSome = true := by
  induction m with
  | nil => simp at h
  | cons p rest ih =>
    obtain ⟨k0, v0⟩ := p
    rw [mapFind_cons]
    by_cases hk : k0 = k
    · simp [hk]
    · simp only [List.map_cons, List.mem_cons] at h
      rcases h with h | h
      · exact absurd h.symm hk
      · simp [hk, ih h]

theorem Cache.PutAll_append [DecidableEq K] (c : Cache K V) (l : List (K × V))
    (x : K × V) (now : Nat) :
    c.PutAll (l ++ [x]) now = (c.PutAll l now).Put x.1 x.2 now := by
  simp [Cache.PutAll, List.foldl_append]

/-- One bounded `Put` at capacity: the front key's entry is deleted, the front
key is popped, the new key is appended, the new entry is stored. -/
theorem Cache.Put_at_capacity [DecidableEq K] (c : Cache K V) (k0 : K) (krest : List K)
    (key : K) (value : V) (t : Nat)
    (hw : c.withMaxSize = true) (hk : c.keys = k0 :: krest)
    (hlen : c.keys.length = c.maxSize) :
    c.Put key value t =
      { c with data := mapStore (mapDelete c.data k0) key ⟨key, value, t⟩,
               keys := krest ++ [key] } := by
  rw [Cache.Put]
  simp only [Cache.newEntry]
  rw [if_pos ⟨hw, hlen⟩, hk]
  rfl

/-- The freshly created bounded cache of capacity `n`. -/
theorem NewCache_withMaxSize [DecidableEq K] [Inhabited K] (n : Nat) :
    (NewCache [WithMaxSize n] : Cache K V) =
      { data := [], keys := List.replicate n default, maxSize := n,
        withMaxSize := decide (0 < n), loader := none, withLoader := false,
        expireAfterWrite := 0, closed := false } := by
  simp [NewCache, WithMaxSize]

/-- Shape of a freshly created bounded cache after any sequence of `Put`s of
pairwise distinct, non-zero keys: the map holds exactly the last
`min n items.length` pairs in insertion order, and the ordered slice is the
remaining zero placeholders followed by those keys. -/
theorem Cache.PutAll_bounded_invariant [DecidableEq K] [Inhabited K] (n : Nat) (hn : 0 < n)
    (items : List (K × V)) (t : Nat)
    (hnd : (items.map Prod.fst).Nodup)
    (hz : ∀ x ∈ items.map Prod.fst, x ≠ (default : K)) :
    ((NewCache [WithMaxSize n]).PutAll items t).data
        = (items.drop (items.length - n)).map
            (fun kv => (kv.1, (⟨kv.1, kv.2, t⟩ : cacheEntry K V))) ∧
    ((NewCache [WithMaxSize n]).PutAll items t).keys
        = List.replicate (n - items.length) default
            ++ (items.map Prod.fst).drop (items.length - n) ∧
    ((NewCache [WithMaxSize n]).PutAll items t).maxSize = n ∧
    ((NewCache [WithMaxSize n]).PutAll items t).withMaxSize = true := by
  induction items using List.reverseRecOn with
  | nil =>
    rw [Cache.PutAll, List.foldl_nil, NewCache_withMaxSize]
    exact ⟨by simp, by simp, rfl, by simp [hn]⟩
  | append_singleton l x ih =>
    have hl_nd : (l.map Prod.fst).Nodup := by
      rw [List.map_append] at hnd
      exact (List.nodup_append.mp hnd).1
    have hx_notmem : x.1 ∉ l.map Prod.fst := by
      rw [List.map_append] at hnd
      intro hmem
      exact (List.nodup_append.mp hnd).2.2 hmem (by simp)
    have hl_z : ∀ y ∈ l.map Prod.fst, y ≠ (default : K) := by
      intro y hy
      exact hz y (by rw [List.map_append]; exact List.mem_append_left _ hy)
    have hx_z : x.1 ≠ (default : K) := by
      refine hz x.1 ?_
      rw [List.map_append]
      exact List.mem_append_right _ (by simp)
    obtain ⟨hdata, hkeys, hmax, hwith⟩ := ih hl_nd hl_z
    set s := (NewCache [WithMaxSize n] : Cache K V).PutAll l t with hs
    have hkslen : (l.map Prod.fst).length = l.length := List.length_map _ _
    have hlen : s.keys.length = s.maxSize := by
      rw [hkeys, hmax, List.length_append, List.length_replicate, List.length_drop, hkslen]
      omega
    rw [Cache.PutAll_append, ← hs]
    by_cases hmn : l.length < n
    · obtain ⟨k, hk⟩ : ∃ k, n - l.length = k + 1 := ⟨n - l.length - 1, by omega⟩
      have hmz : l.length - n = 0 := by omega
      have hz2 : (l ++ [x]).length - n = 0 := by
        rw [List.length_append, List.length_singleton]; omega
      have hk2 : n - (l ++ [x]).length = k := by
        rw [List.length_append, List.length_singleton]; omega
      have hks : s.keys = (default : K) ::
          (List.replicate k default ++ l.map Prod.fst) := by
        rw [hkeys, hmz, List.drop_zero, hk, List.replicate_succ, List.cons_append]
      rw [Cache.Put_at_capacity s default (List.replicate k default ++ l.map Prod.fst)
            x.1 x.2 t hwith hks hlen]
      have hdel : mapDelete s.data default = s.data := by
        refine mapDelete_of_not_mem _ _ ?_
        intro hmem
        rw [hdata, hmz, List.drop_zero] at hmem
        simp only [List.map_map, List.mem_map, Function.comp] at hmem
        obtain ⟨kv, hkv, hkveq⟩ := hmem
        exact hl_z kv.1 (List.mem_map_of_mem _ hkv) hkveq
      have hnotm : x.1 ∉ s.data.map Prod.fst := by
        intro hmem
        rw [hdata, hmz, List.drop_zero] at hmem
        simp only [List.map_map, List.mem_map, Function.comp] at hmem
        obtain ⟨kv, hkv, hkveq⟩ := hmem
        exact hx_notmem (hkveq ▸ List.mem_map_of_mem _ hkv)
      refine ⟨?_, ?_, hmax, hwith⟩
      · show mapStore (mapDelete s.data default) x.1 ⟨x.1, x.2, t⟩ = _
        rw [hdel, mapStore_of_not_mem _ _ _ hnotm, hdata, hmz, List.drop_zero, hz2,
            List.drop_zero, List.map_append]
        rfl
      · show (List.replicate k default ++ l.map Prod.fst) ++ [x.1] = _
        rw [hz2, List.drop_zero, hk2, List.map_append, List.append_assoc]
        rfl
    · have hge : n ≤ l.length := by omega
      have hrep : List.replicate (n - l.length) (default : K) = [] := by
        rw [show n - l.length = 0 by omega, List.replicate_zero]
      obtain ⟨p0, ptail, hpt⟩ : ∃ p0 ptail, l.drop (l.length - n) = p0 :: ptail := by
        cases hdl : l.drop (l.length - n) with
        | nil =>
          have := congrArg List.length hdl
          rw [List.length_drop] at this
          simp at this
          omega
        | cons a as => exact ⟨a, as, rfl⟩
      have hmapdrop : (l.map Prod.fst).drop (l.length - n) = p0.1 :: ptail.map Prod.fst := by
        rw [← List.map_drop, hpt, List.map_cons]
      have hks : s.keys = p0.1 :: ptail.map Prod.fst := by
        rw [hkeys, hrep, List.nil_append, hmapdrop]
      rw [Cache.Put_at_capacity s p0.1 (ptail.map Prod.fst) x.1 x.2 t hwith hks hlen]
      have hdata2 : s.data = (p0.1, (⟨p0.1, p0.2, t⟩ : cacheEntry K V)) ::
          ptail.map (fun kv => (kv.1, (⟨kv.1, kv.2, t⟩ : cacheEntry K V))) := by
        rw [hdata, hpt, List.map_cons]
      have hdel : mapDelete s.data p0.1 =
          ptail.map (fun kv => (kv.1, (⟨kv.1, kv.2, t⟩ : cacheEntry K V))) := by
        rw [hdata2, mapDelete_head]
      have hptail_sub : ∀ y ∈ ptail.map Prod.fst, y ∈ l.map Prod.fst := by
        intro y hy
        have hmem : y ∈ (l.map Prod.fst).drop (l.length - n) := by
          rw [hmapdrop]; exact List.mem_cons_of_mem _ hy
        exact List.mem_of_mem_drop hmem
      have hnotm : x.1 ∉ (ptail.map
          (fun kv => (kv.1, (⟨kv.1, kv.2, t⟩ : cacheEntry K V)))).map Prod.fst := by
        intro hmem
        simp only [List.map_map, List.mem_map, Function.comp] at hmem
        obtain ⟨kv, hkv, hkveq⟩ := hmem
        exact hx_notmem (hkveq ▸ hptail_sub kv.1 (List.mem_map_of_mem _ hkv))
      have htail : List.drop (l.length + 1 - n) l = ptail := by
        rw [show l.length + 1 - n = (l.length - n) + 1 by omega,
            ← List.drop_drop 1 (l.length - n) l, hpt, List.drop_one, List.tail_cons]
      have hstep : (l ++ [x]).drop ((l ++ [x]).length - n) = ptail ++ [x] := by
        rw [List.length_append, List.length_singleton,
            List.drop_append_of_le_length (by omega), htail]
      have hstep2 : ((l ++ [x]).map Prod.fst).drop ((l ++ [x]).length - n)
          = ptail.map Prod.fst ++ [x.1] := by
        rw [← List.map_drop, hstep, List.map_append]
        rfl
      refine ⟨?_, ?_, hmax, hwith⟩
      · show mapStore (mapDelete s.data p0.1) x.1 ⟨x.1, x.2, t⟩ = _
        rw [hdel, mapStore_of_not_mem _ _ _ hnotm, hstep, List.map_append]
        rfl
      · show ptail.map Prod.fst ++ [x.1] = _
        rw [show n - (l ++ [x]).length = 0 by
              rw [List.length_append, List.length_singleton]; omega,
            List.replicate_zero, List.nil_append, hstep2]

/-! ## General helper lemmas -/

theorem length_filter_add_length_filter_not {α : Type u} (p : α → Bool) (l : List α) :
    (l.filter p).length + (l.filter (fun a => !(p a))).length = l.length := by
  induction l with
  | nil => rfl
  | cons a rest ih =>
    by_cases h : p a = true <;> simp [List.filter_cons, h, ← ih] <;> omega

theorem map_fst_entry_pairs [DecidableEq K] (l : List (K × V)) (t : Nat) :
    (l.map (fun kv => (kv.1, (⟨kv.1, kv.2, t⟩ : cacheEntry K V)))).map Prod.fst
      = l.map Prod.fst := by
  induction l with
  | nil => rfl
  | cons a rest ih => simp [ih]

/-! ## Claim theorems -/

/-- C1: the claim fails on the code at a concrete input. In the older
variant, `Reload` removes the entry before calling the loader, so on loader
failure the previously stored value is lost: after `Put 1 100`, a failing
`Reload 1` returns the error but the entry for key 1 is gone, `Count` drops
to 0, and a subsequent `Get` returns `(0, false, error)` instead of the
stored `(100, true)` that the repository's own test
`should not update cache when loader returns an error` (cache_test.go)
asserts for exactly this sequence. -/
theorem C1_reload_error_loses_stored_value :
    ((((NewCache [WithLoader (some failLoader)]).Put 1 100 0).Reload 1 1).1
        = (0, false, some "ERROR")) ∧
    ((((NewCache [WithLoader (some failLoader)]).Put 1 100 0).Reload 1 1).2).getSafe 1
        = none ∧
    ((((NewCache [WithLoader (some failLoader)]).Put 1 100 0).Reload 1 1).2).Count = 0 ∧
    (((((NewCache [WithLoader (some failLoader)]).Put 1 100 0).Reload 1 1).2).Get 1 2).1
        = (0, false, some "ERROR") := by
  exact ⟨rfl, rfl, rfl, rfl⟩

/-- C2 counterexample: inserting the 4 distinct keys 1, 0, 2, 3 into a fresh
bounded cache of capacity 3 leaves `Count() = 2`, not 3, and key 0 is among
the missing keys even though only k = 1 eviction should have happened: the
zero key collides with the placeholder keys prefilling the ordered slice, so
a later eviction of a placeholder deletes the live entry for key 0. -/
theorem C2_counterexample :
    ([1, 0, 2, 3] : List Nat).Nodup ∧
    ((NewCache [WithMaxSize 3]).PutAll
        ([(1, 100), (0, 200), (2, 300), (3, 400)] : List (Nat × Nat)) 0).Count = 2 ∧
    ((NewCache [WithMaxSize 3]).PutAll
        ([(1, 100), (0, 200), (2, 300), (3, 400)] : List (Nat × Nat)) 0).Count ≠ 3 ∧
    ((NewCache [WithMaxSize 3]).PutAll
        ([(1, 100), (0, 200), (2, 300), (3, 400)] : List (Nat × Nat)) 0).getSafe 0
        = none := by
  refine ⟨by decide, rfl, by decide, rfl⟩

/-- C2 (amended): for every capacity maxSize ≥ 1 and every k ≥ 1, after
inserting maxSize + k distinct keys none of which equals the key type's zero
value into a freshly created bounded cache of capacity maxSize, `Count()`
equals maxSize and the keys no longer present are exactly the k
earliest-inserted ones. -/
theorem C2_fifo_bound [DecidableEq K] [Inhabited K] (maxSize k : Nat)
    (items : List (K × V)) (t : Nat)
    (hm : 0 < maxSize) (hk : 0 < k) (hlen : items.length = maxSize + k)
    (hnd : (items.map Prod.fst).Nodup)
    (hz : ∀ x ∈ items.map Prod.fst, x ≠ (default : K)) :
    ((NewCache [WithMaxSize maxSize]).PutAll items t).Count = maxSize ∧
    ((NewCache [WithMaxSize maxSize]).PutAll items t).data.map Prod.fst
        = (items.map Prod.fst).drop k ∧
    (∀ y ∈ (items.map Prod.fst).take k,
        ((NewCache [WithMaxSize maxSize]).PutAll items t).getSafe y = none) ∧
    (∀ y ∈ (items.map Prod.fst).drop k,
        (((NewCache [WithMaxSize maxSize]).PutAll items t).getSafe y).isSome = true) := by
  obtain ⟨hdata, hkeys, hmax, hwith⟩ :=
    Cache.PutAll_bounded_invariant maxSize hm items t hnd hz
  have hidx : items.length - maxSize = k := by omega
  have hfst : ((NewCache [WithMaxSize maxSize]).PutAll items t).data.map Prod.fst
      = (items.map Prod.fst).drop k := by
    rw [hdata, hidx, map_fst_entry_pairs, List.map_drop]
  have hnodup_split : ((items.map Prod.fst).take k).Disjoint ((items.map Prod.fst).drop k) := by
    have hsplit : (items.map Prod.fst).take k ++ (items.map Prod.fst).drop k
        = items.map Prod.fst := List.take_append_drop k _
    have h2 : ((items.map Prod.fst).take k ++ (items.map Prod.fst).drop k).Nodup := by
      rw [hsplit]; exact hnd
    exact (List.nodup_append.mp h2).2.2
  refine ⟨?_, hfst, ?_, ?_⟩
  · rw [Cache.Count, hdata, hidx, List.length_map, List.length_drop]
    omega
  · intro y hy
    rw [Cache.getSafe]
    refine mapFind_eq_none_of_not_mem _ _ ?_
    rw [hfst]
    exact hnodup_split hy
  · intro y hy
    rw [Cache.getSafe]
    refine mapFind_isSome_of_mem _ _ ?_
    rw [hfst]
    exact hy

/-- Witness for C2 at maxSize = 2, k = 1, keys 1, 2, 3. -/
theorem C2_fifo_bound_witness :
    ((NewCache [WithMaxSize 2]).PutAll
        ([(1, 10), (2, 20), (3, 30)] : List (Nat × Nat)) 0).Count = 2 ∧
    ((NewCache [WithMaxSize 2]).PutAll
        ([(1, 10), (2, 20), (3, 30)] : List (Nat × Nat)) 0).data.map Prod.fst
        = [2, 3] := by
  obtain ⟨h1, h2, h3, h4⟩ := C2_fifo_bound 2 1 ([(1, 10), (2, 20), (3, 30)] : List (Nat × Nat))
    0 (by decide) (by decide) (by decide) (by decide) (by decide)
  exact ⟨h1, h2⟩

/-- C4 counterexample: in the older variant, `Count()` reports the raw map
size, so an entry whose TTL (10) has elapsed at time 100 but which the
sweeper has not yet removed is still counted: `Count() = 1` although the
single stored entry is expired. -/
theorem C4_counterexample :
    ((NewCache [WithExpireAfterWrite 10] : Cache Nat Nat).expireAfterWrite = 10) ∧
    (((NewCache [WithExpireAfterWrite 10] : Cache Nat Nat).Put 1 5 0).Count = 1) ∧
    ((((NewCache [WithExpireAfterWrite 10] : Cache Nat Nat).Put 1 5 0).getSafe 1).map
        (fun e => e.isExpired 10 100) = some true) := by
  exact ⟨rfl, rfl, rfl⟩

/-- C4 (amended): the newer variant's `Count()` counts exactly the entries
that are not expired at the time of the call — together with the expired
ones they partition the raw map size, and no member of
`nonExpiredEntries` is expired — while the older variant's `Count()` is the
raw map size `len(data)`, which includes expired-but-unswept entries. -/
theorem C4_count_filters_expired [DecidableEq K] (c : CacheImpl K V) (s : Cache K V)
    (now : Nat) :
    c.Count now + (c.entries.filter (fun p => p.2.isExpired now)).length
        = c.entries.length ∧
    (∀ p ∈ c.nonExpiredEntries now, p.2.isExpired now = false) ∧
    s.Count = s.data.length := by
  refine ⟨?_, ?_, rfl⟩
  · rw [CacheImpl.Count, CacheImpl.nonExpiredEntries, Nat.add_comm]
    exact length_filter_add_length_filter_not (fun p => p.2.isExpired now) c.entries
  · intro p hp
    rw [CacheImpl.nonExpiredEntries, List.mem_filter] at hp
    simpa using hp.2

/-- C5: TTL boundary semantics of all three entry flavours. An entry written
at `writeTime` under a configured TTL `d > 0` is not expired at any instant
strictly before `writeTime + d` and is expired at any instant strictly after
`writeTime + d`; an entry written with no TTL configured (zero duration, or
zero-valued expiration instant) is never expired. Covers the newer variant's
`newEntry`/`isExpired`, the older variant's duration-based `isExpired`, and
entry.go's `isExpired`. -/
theorem C5_ttl_expiry_boundary [DecidableEq K] (c : CacheImpl K V) (key : K) (value : V)
    (writeTime now : Nat) :
    (0 < c.expireAfterWrite → now < writeTime + c.expireAfterWrite →
        (c.newEntry key value writeTime).isExpired now = false) ∧
    (0 < c.expireAfterWrite → writeTime + c.expireAfterWrite < now →
        (c.newEntry key value writeTime).isExpired now = true) ∧
    (c.expireAfterWrite = 0 → (c.newEntry key value writeTime).isExpired now = false) ∧
    (∀ (e : cacheEntry K V) (d : Nat), 0 < d → e.updated = writeTime →
        (now < writeTime + d → e.isExpired d now = false) ∧
        (writeTime + d < now → e.isExpired d now = true)) ∧
    (∀ e : cacheEntry K V, e.isExpired 0 now = false) ∧
    (∀ g : entry K V, g.expireAt = 0 → g.isExpired now = false) ∧
    (∀ (g : entry K V) (d : Nat), 0 < d → g.expireAt = writeTime + d →
        (now < writeTime + d → g.isExpired now = false) ∧
        (writeTime + d < now → g.isExpired now = true)) := by
  refine ⟨?_, ?_, ?_, ?_, ?_, ?_, ?_⟩
  · intro hd hnow
    simp only [CacheImpl.newEntry, cacheEntryImpl.isExpired, if_pos hd]
    split_ifs with h0
    · rfl
    · simp only [decide_eq_false_iff_not]
      omega
  · intro hd hnow
    simp only [CacheImpl.newEntry, cacheEntryImpl.isExpired, if_pos hd]
    split_ifs with h0
    · omega
    · simp only [decide_eq_true_eq]
      omega
  · intro hd
    simp [CacheImpl.newEntry, cacheEntryImpl.isExpired, hd]
  · intro e d hd hupd
    constructor
    · intro hnow
      simp only [cacheEntry.isExpired, if_pos hd, decide_eq_false_iff_not]
      omega
    · intro hnow
      simp only [cacheEntry.isExpired, if_pos hd, decide_eq_true_eq]
      omega
  · intro e
    simp [cacheEntry.isExpired]
  · intro g hg
    simp [entry.isExpired, hg]
  · intro g d hd hg
    constructor
    · intro hnow
      rw [entry.isExpired, hg]
      split_ifs with h0
      · rfl
      · simp only [decide_eq_false_iff_not]
        omega
    · intro hnow
      rw [entry.isExpired, hg]
      split_ifs with h0
      · omega
      · simp only [decide_eq_true_eq]
        omega

/-- Witness for C5: TTL 10, write at 5: not expired at 14, expired at 16;
without TTL never expired (checked at 1000000). -/
theorem C5_ttl_expiry_boundary_witness :
    ((NewCacheImpl [WithExpireAfterWriteImpl 10] : CacheImpl Nat Nat).newEntry
        1 2 5).isExpired 14 = false ∧
    ((NewCacheImpl [WithExpireAfterWriteImpl 10] : CacheImpl Nat Nat).newEntry
        1 2 5).isExpired 16 = true ∧
    ((NewCacheImpl [] : CacheImpl Nat Nat).newEntry 1 2 5).isExpired 1000000 = false := by
  refine ⟨?_, ?_, ?_⟩
  · exact (C5_ttl_expiry_boundary (NewCacheImpl [WithExpireAfterWriteImpl 10]) 1 2 5 14).1
      (by decide) (by decide)
  · exact (C5_ttl_expiry_boundary (NewCacheImpl [WithExpireAfterWriteImpl 10]) 1 2 5 16).2.1
      (by decide) (by decide)
  · exact (C5_ttl_expiry_boundary (NewCacheImpl []) 1 2 5 1000000).2.2.1 (by decide)

/-- C6: the claim fails on the code at a concrete input. In bounded mode the
ordered key sequence is not kept consistent with the map: after
`Put 1, Put 2, Put 3` into a capacity-3 cache, `Remove 2` deletes key 2 from
the map but leaves it in the sequence; re-`Put`ting 2 then appends a
duplicate while evicting live key 1, and the next `Put 4` evicts the live
entry for 2 via the stale front copy. The final state has only two live
entries (3 and 4) and misses key 2, whereas the repository's own test
`Test_WithMaxSize / remove` asserts three values with key 2 present. A `Put`
of an existing key also moves it to the back of the sequence. -/
theorem C6_key_sequence_inconsistent :
    (((((NewCache [WithMaxSize 3] : Cache Nat Nat).Put 1 100 0).Put 2 200 0).Put 3 300 0).Remove
        2).keys = [1, 2, 3] ∧
    (((((NewCache [WithMaxSize 3] : Cache Nat Nat).Put 1 100 0).Put 2 200 0).Put 3 300 0).Remove
        2).data.map Prod.fst = [1, 3] ∧
    ((((((((NewCache [WithMaxSize 3] : Cache Nat Nat).Put 1 100 0).Put 2 200 0).Put 3
        300 0).Remove 2).Put 2 202 0).Put 4 400 0).Count = 2) ∧
    ((((((((NewCache [WithMaxSize 3] : Cache Nat Nat).Put 1 100 0).Put 2 200 0).Put 3
        300 0).Remove 2).Put 2 202 0).Put 4 400 0).getSafe 2 = none) ∧
    ((((((((NewCache [WithMaxSize 3] : Cache Nat Nat).Put 1 100 0).Put 2 200 0).Put 3
        300 0).Remove 2).Put 2 202 0).Put 4 400 0).Keys = [3, 2, 4]) ∧
    ((((((((NewCache [WithMaxSize 3] : Cache Nat Nat).Put 1 100 0).Put 2 200 0).Put 3
        300 0).Remove 2).Put 2 202 0).Put 4 400 0).data.map Prod.fst = [3, 4]) ∧
    ((((NewCache [WithMaxSize 2] : Cache Nat Nat).Put 1 10 0).Put 2 20 0).keys = [1, 2]) ∧
    (((((NewCache [WithMaxSize 2] : Cache Nat Nat).Put 1 10 0).Put 2 20 0).Put 1
        11 0).keys = [2, 1]) := by
  exact ⟨rfl, rfl, rfl, rfl, rfl, rfl, rfl, rfl⟩

/-- C7 counterexample: after `Clear()` on a bounded cache holding key 1, the
store is empty but the ordered key list is not reset: it still holds the
stale key 1 (and a zero placeholder), and bounded-mode `Keys()` returns it. -/
theorem C7_counterexample :
    ((((NewCache [WithMaxSize 2] : Cache Nat Nat).Put 1 100 0).Clear).Count = 0) ∧
    ((((NewCache [WithMaxSize 2] : Cache Nat Nat).Put 1 100 0).Clear).keys = [0, 1]) ∧
    ((((NewCache [WithMaxSize 2] : Cache Nat Nat).Put 1 100 0).Clear).keys ≠ []) ∧
    ((((NewCache [WithMaxSize 2] : Cache Nat Nat).Put 1 100 0).Clear).Keys ≠ []) := by
  refine ⟨rfl, rfl, by decide, by decide⟩

/-- C7 (amended): after `Clear()` the store is empty in both variants —
`Count()` is 0 and no key is found — but the bounded-mode ordered key list is
left untouched rather than reset. -/
theorem C7_clear_empties_store_but_not_keys [DecidableEq K] [Inhabited V]
    (s : Cache K V) (c : CacheImpl K V) :
    s.Clear.data = [] ∧ s.Clear.Count = 0 ∧
    (∀ key : K, s.Clear.Has key = false) ∧
    (∀ key : K, s.Clear.getSafe key = none) ∧
    s.Clear.keys = s.keys ∧
    c.Clear.entries = [] ∧ (∀ now : Nat, c.Clear.Count now = 0) ∧
    (∀ (key : K) (now : Nat), c.Clear.GetIfPresent key now = (default, false)) ∧
    (∀ (key : K) (now : Nat), c.Clear.Has key now = false) := by
  exact ⟨rfl, rfl, fun _ => rfl, fun _ => rfl, rfl, rfl, fun _ => rfl,
    fun _ _ => rfl, fun _ _ => rfl⟩

/-- C8 counterexample: `Close()` does not clear the entries. In the newer
variant, after `Put 1 5` under a TTL of 10, `Close()` stops the ticker but
`Count()` is still 1 and the map is non-empty; the older variant keeps its
single entry across `Close()` as well (its own test
`should close context and stop current entries from expiring` asserts that
entries survive `Close()`). -/
theorem C8_counterexample :
    ((((NewCacheImpl [WithExpireAfterWriteImpl 10] : CacheImpl Nat Nat).Put 1 5 0).Close).Count 0
        = 1) ∧
    ((((NewCacheImpl [WithExpireAfterWriteImpl 10] : CacheImpl Nat Nat).Put 1 5 0).Close).entries
        ≠ []) ∧
    ((((NewCache [] : Cache Nat Nat).Put 1 5 0).Close).Count = 1) := by
  refine ⟨rfl, by decide, rfl⟩

/-- C8 (amended): `Close()` stops the sweeper when one is active, is
idempotent and total no matter how often it is called — including on a cache
whose sweeper was never started, where it is a no-op — but it does not clear
the entries in either variant. -/
theorem C8_close_idempotent_keeps_entries [DecidableEq K] (c : CacheImpl K V)
    (s : Cache K V) :
    c.Close.Close = c.Close ∧ c.Close.entries = c.entries ∧
    (c.hasTicker = true → c.Close.sweeperStopped = true) ∧
    (c.hasTicker = false → c.Close = c) ∧
    s.Close.Close = s.Close ∧ s.Close.data = s.data ∧ s.Close.closed = true := by
  refine ⟨?_, ?_, ?_, ?_, rfl, rfl, rfl⟩
  · by_cases h : c.hasTicker = true <;> simp [CacheImpl.Close, h]
  · by_cases h : c.hasTicker = true <;> simp [CacheImpl.Close, h]
  · intro h
    simp [CacheImpl.Close, h]
  · intro h
    simp [CacheImpl.Close, h]

/-- Witness for C8: with a ticker, a closed cache keeps its entry and its
sweeper flag is set; without a ticker, `Close()` is the identity. -/
theorem C8_close_idempotent_keeps_entries_witness :
    (((NewCacheImpl [WithExpireAfterWriteImpl 10] : CacheImpl Nat Nat).Put 1 5 0).Close.entries
        = ((NewCacheImpl [WithExpireAfterWriteImpl 10] : CacheImpl Nat Nat).Put 1 5 0).entries) ∧
    (((NewCacheImpl [WithExpireAfterWriteImpl 10] : CacheImpl Nat Nat).Put 1 5
        0).Close.sweeperStopped = true) ∧
    ((NewCacheImpl [] : CacheImpl Nat Nat).Close = NewCacheImpl []) := by
  refine ⟨(C8_close_idempotent_keeps_entries
      ((NewCacheImpl [WithExpireAfterWriteImpl 10] : CacheImpl Nat Nat).Put 1 5 0)
      (NewCache [])).2.1,
    (C8_close_idempotent_keeps_entries
      ((NewCacheImpl [WithExpireAfterWriteImpl 10] : CacheImpl Nat Nat).Put 1 5 0)
      (NewCache [])).2.2.1 rfl,
    (C8_close_idempotent_keeps_entries (NewCacheImpl [] : CacheImpl Nat Nat)
      (NewCache [])).2.2.2.1 rfl⟩

/-- C9: loader-dependent operations on a cache constructed without a loader
return a typed, recoverable error value and leave the state unchanged (the
functions are total, so no crash): the newer variant's `Get` (on an uncached
key) and `Refresh` return the configuration error from `load`, and the older
variant's `Reload` returns its configuration error. -/
theorem C9_no_loader_typed_error [DecidableEq K] [Inhabited V] (c : CacheImpl K V)
    (s : Cache K V) (key : K) (now : Nat)
    (hc : c.loader = none) (hs : s.withLoader = false) (hk : c.getSafe key = none) :
    (c.Get key now).1
        = (default, some "you must configure a loader, use GetIfPresent instead") ∧
    (c.Get key now).2 = c ∧
    (c.Refresh key now).1
        = (default, some "you must configure a loader, use GetIfPresent instead") ∧
    (c.Refresh key now).2 = c ∧
    (s.Reload key now).1 = (default, false, some "Cache doesn't contain a loader function") ∧
    (s.Reload key now).2 = s := by
  have hload : c.load key
      = (default, some "you must configure a loader, use GetIfPresent instead") := by
    rw [CacheImpl.load, hc]
  constructor
  · rw [CacheImpl.Get, hk]
    simp [hload]
  constructor
  · rw [CacheImpl.Get, hk]
    simp [hload]
  constructor
  · rw [CacheImpl.Refresh]
    simp [hload]
  constructor
  · rw [CacheImpl.Refresh]
    simp [hload]
  · rw [Cache.Reload, if_neg (by rw [hs]; exact Bool.false_ne_true)]
    exact ⟨rfl, rfl⟩

/-- Witness for C9 on fresh loader-less caches and key 1. -/
theorem C9_no_loader_typed_error_witness :
    (((NewCacheImpl [] : CacheImpl Nat Nat).Get 1 0).1
        = (0, some "you must configure a loader, use GetIfPresent instead")) ∧
    (((NewCache [] : Cache Nat Nat).Reload 1 0).1
        = (0, false, some "Cache doesn't contain a loader function")) := by
  exact ⟨(C9_no_loader_typed_error (NewCacheImpl []) (NewCache []) 1 0 rfl rfl rfl).1,
    (C9_no_loader_typed_error (NewCacheImpl []) (NewCache []) 1 0 rfl rfl rfl).2.2.2.2.1⟩

/-- C10: immediately after `WithMaxSize(n)` (n ≥ 1) and before any `Put`, the
ordered key slice already holds n zero-valued keys, bounded-mode `Keys()`
returns those n placeholders while `Count()` is 0, and each of the first n
`Put`s already takes the at-capacity branch, evicting the front placeholder:
after a first `Put` the slice is n-1 placeholders followed by the new key,
and after j ≤ n `Put`s of distinct non-zero keys it is n-j placeholders
followed by the inserted keys in order. -/
theorem C10_placeholder_keys [DecidableEq K] [Inhabited K] (n : Nat)
    (items : List (K × V)) (t : Nat) (key : K) (value : V) (hn : 0 < n)
    (hnd : (items.map Prod.fst).Nodup)
    (hz : ∀ x ∈ items.map Prod.fst, x ≠ (default : K))
    (hle : items.length ≤ n) :
    (NewCache [WithMaxSize n] : Cache K V).keys = List.replicate n default ∧
    (NewCache [WithMaxSize n] : Cache K V).Count = 0 ∧
    (NewCache [WithMaxSize n] : Cache K V).Keys = List.replicate n default ∧
    ((NewCache [WithMaxSize n] : Cache K V).Put key value t).keys
        = List.replicate (n - 1) default ++ [key] ∧
    ((NewCache [WithMaxSize n]).PutAll items t).keys
        = List.replicate (n - items.length) default ++ items.map Prod.fst := by
  have hbase := NewCache_withMaxSize (K := K) (V := V) n
  have hrep : List.replicate n (default : K)
      = default :: List.replicate (n - 1) default := by
    conv_lhs => rw [show n = (n - 1) + 1 by omega]
    rw [List.replicate_succ]
  refine ⟨by rw [hbase], by rw [Cache.Count, hbase]; rfl, ?_, ?_, ?_⟩
  · rw [Cache.Keys, if_pos (by rw [hbase]; simp [hn]), hbase]
  · rw [Cache.Put_at_capacity (NewCache [WithMaxSize n]) default
        (List.replicate (n - 1) default) key value t
        (by rw [hbase]; simp [hn])
        (by rw [hbase]; exact hrep)
        (by rw [hbase]; simp)]
  · obtain ⟨hdata, hkeys, hmax, hwith⟩ :=
      Cache.PutAll_bounded_invariant n hn items t hnd hz
    rw [hkeys, show items.length - n = 0 by omega, List.drop_zero]

/-- Witness for C10 at n = 2, one inserted pair (1, 10), then key 7. -/
theorem C10_placeholder_keys_witness :
    (NewCache [WithMaxSize 2] : Cache Nat Nat).keys = [0, 0] ∧
    (NewCache [WithMaxSize 2] : Cache Nat Nat).Count = 0 ∧
    (NewCache [WithMaxSize 2] : Cache Nat Nat).Keys = [0, 0] ∧
    ((NewCache [WithMaxSize 2] : Cache Nat Nat).Put 7 70 0).keys = [0, 7] := by
  obtain ⟨h1, h2, h3, h4, h5⟩ := C10_placeholder_keys 2 ([(1, 10)] : List (Nat × Nat))
    0 7 70 (by decide) (by decide) (by decide) (by decide)
  exact ⟨h1, h2, h3, h4⟩

/-- Witness for C4: one entry written at 0 under TTL 10, observed at 100:
0 non-expired plus 1 expired equals the raw size 1. -/
theorem C4_count_filters_expired_witness :
    (((NewCacheImpl [WithExpireAfterWriteImpl 10] : CacheImpl Nat Nat).Put 1 5 0).Count 100)
      + ((((NewCacheImpl [WithExpireAfterWriteImpl 10] : CacheImpl Nat Nat).Put 1 5
          0).entries.filter (fun p => p.2.isExpired 100)).length)
      = (((NewCacheImpl [WithExpireAfterWriteImpl 10] : CacheImpl Nat Nat).Put 1 5
          0).entries).length := by
  exact (C4_count_filters_expired
    ((NewCacheImpl [WithExpireAfterWriteImpl 10] : CacheImpl Nat Nat).Put 1 5 0)
    (NewCache []) 100).1

/-- Witness for C7 on a concrete bounded cache holding key 1. -/
theorem C7_clear_empties_store_but_not_keys_witness :
    (((NewCache [WithMaxSize 2] : Cache Nat Nat).Put 1 100 0).Clear.data = []) ∧
    (((NewCache [WithMaxSize 2] : Cache Nat Nat).Put 1 100 0).Clear.keys
        = ((NewCache [WithMaxSize 2] : Cache Nat Nat).Put 1 100 0).keys) := by
  exact ⟨(C7_clear_empties_store_but_not_keys
      ((NewCache [WithMaxSize 2] : Cache Nat Nat).Put 1 100 0) (NewCacheImpl [])).1,
    (C7_clear_empties_store_but_not_keys
      ((NewCache [WithMaxSize 2] : Cache Nat Nat).Put 1 100 0)
      (NewCacheImpl [])).2.2.2.2.1⟩
